import Mathlib

/-!
Verification of the concurrency and resource-management core of the
web-scrape service (`scrape/web_scrape.py`): the token-bucket rate
limiter, the bounded admission gate, the session registry with its
single-active-session policy, the bounded per-session event queues
with drop-oldest overflow, the reaper sweep, and the SSE keepalive
cadence.

Timestamps and token counts are modelled as rationals (the source uses
`time.time()` floats and float token counts; all claims here are exact
arithmetic facts, so `ℚ` is a faithful model).  Python dicts are
modelled as association lists with insertion-order-preserving update,
matching dict semantics for the operations the source uses.
-/

namespace Scrape

/-- Default for `SCRAPE_HEADLESS_DEFAULT` ("1", hence true). -/
def HEADLESS_DEFAULT : Bool := true

/-- Fixed event-queue capacity: `Queue(maxsize=256)` in `_ensure_session`. -/
def QUEUE_CAP : Nat := 256

/-- Millisecond timestamp `int(time.time() * 1000)`; clock values are
nonnegative, where truncation and floor agree. -/
def tsMillis (now : ℚ) : Int := ⌊now * 1000⌋

/-- Dict lookup (`d.get(k)`). -/
def alget {α : Type} (l : List (String × α)) (k : String) : Option α :=
  match l with
  | [] => none
  | (k', v) :: rest => if k' = k then some v else alget rest k

/-- Dict store (`d[k] = v`): replaces in place, appends if absent,
matching insertion-order-preserving dict update. -/
def alset {α : Type} (l : List (String × α)) (k : String) (v : α) :
    List (String × α) :=
  match l with
  | [] => [(k, v)]
  | (k', v') :: rest =>
      if k' = k then (k, v) :: rest else (k', v') :: alset rest k v

/-- Dict removal (`d.pop(k, None)`). -/
def alremove {α : Type} (l : List (String × α)) (k : String) :
    List (String × α) :=
  match l with
  | [] => []
  | (k', v') :: rest =>
      if k' = k then rest else (k', v') :: alremove rest k

/-- One entry of `_RATE_BUCKETS`: current token count and last-refill
timestamp. -/
structure RateBucket where
  tokens : ℚ
  ts : ℚ
deriving DecidableEq

/-- Core of `_apply_rate_limit` for one identity: looks up (or creates)
the bucket, writes `bucket["ts"] = now`, computes the refilled token
count clamped at the burst capacity, then either denies (tokens < 1,
token count not written back) or allows (stores `tokens - 1`).
Returns (allowed?, bucket afterwards). -/
def rate_check (bucket? : Option RateBucket) (now : ℚ) (rps burst : ℕ) :
    Bool × RateBucket :=
  let bucket := bucket?.getD { tokens := (burst : ℚ), ts := now }
  let elapsed : ℚ := max 0 (now - bucket.ts)
  let bucket1 : RateBucket := { bucket with ts := now }
  let tokens : ℚ := min (burst : ℚ) (bucket.tokens + elapsed * (rps : ℚ))
  if tokens < 1 then (false, bucket1)
  else (true, { bucket1 with tokens := tokens - 1 })

/-- Runs `n` successive rate-limit checks for one identity, all at the
same instant `now`, threading the bucket through. -/
def rate_go (now : ℚ) (rps burst : ℕ) : ℕ → Option RateBucket → List Bool
  | 0, _ => []
  | n + 1, b =>
      let r := rate_check b now rps burst
      r.1 :: rate_go now rps burst n (some r.2)

/-- A burst of `n` instantaneous checks starting from a fresh (absent)
bucket. -/
def rate_burst (n : ℕ) (now : ℚ) (rps burst : ℕ) : List Bool :=
  rate_go now rps burst n none

lemma rate_check_instant_zero (rps burst : ℕ) (now : ℚ) :
    rate_check (some ⟨0, now⟩) now rps burst = (false, ⟨0, now⟩) := by
  unfold rate_check
  simp only [Option.getD]
  rw [show (0 : ℚ) + max 0 (now - now) * (rps : ℚ) = 0 by simp]
  rw [min_eq_right (by positivity : (0 : ℚ) ≤ (burst : ℚ))]
  rw [if_pos (by norm_num : (0 : ℚ) < 1)]

lemma rate_check_instant_succ (m rps burst : ℕ) (now : ℚ)
    (hm : m + 1 ≤ burst) :
    rate_check (some ⟨(m : ℚ) + 1, now⟩) now rps burst =
      (true, ⟨(m : ℚ), now⟩) := by
  unfold rate_check
  simp only [Option.getD]
  rw [show (m : ℚ) + 1 + max 0 (now - now) * (rps : ℚ) = (m : ℚ) + 1 by simp]
  rw [min_eq_right (by exact_mod_cast hm : ((m : ℚ) + 1) ≤ (burst : ℚ))]
  have h3 : ¬ ((m : ℚ) + 1 < 1) := by
    push_neg
    have h0 : (0 : ℚ) ≤ (m : ℚ) := by positivity
    linarith
  rw [if_neg h3]
  norm_num

lemma rate_go_instant (now : ℚ) (rps burst : ℕ) :
    ∀ n m, m ≤ burst →
      rate_go now rps burst n (some ⟨(m : ℚ), now⟩) =
        List.replicate (min n m) true ++ List.replicate (n - m) false := by
  intro n
  induction n with
  | zero => intro m _; simp [rate_go]
  | succ n ih =>
      intro m hm
      rcases Nat.eq_zero_or_pos m with h0 | h0
      · subst h0
        rw [rate_go]
        simp only [Nat.cast_zero, rate_check_instant_zero]
        have ih0 := ih 0 (Nat.zero_le _)
        rw [Nat.cast_zero] at ih0
        rw [ih0]
        simp [List.replicate_succ]
      · obtain ⟨m', rfl⟩ := Nat.exists_eq_succ_of_ne_zero (Nat.pos_iff_ne_zero.mp h0)
        have hcast : ((m' + 1 : ℕ) : ℚ) = (m' : ℚ) + 1 := by push_cast; ring
        rw [rate_go, hcast, rate_check_instant_succ m' rps burst now hm]
        rw [ih m' (le_trans (Nat.le_succ m') hm)]
        have hmin : min (n + 1) (m' + 1) = min n m' + 1 := by omega
        have hsub : n + 1 - (m' + 1) = n - m' := by omega
        rw [hmin, hsub, List.replicate_succ]
        simp

/-- C1: for a burst of `burst + 1` rate-limit checks from one identity
arriving at the same instant, starting from a fresh bucket, exactly the
first `burst` checks are allowed and the `(burst+1)`-th is denied. -/
theorem rate_limit_burst_exact (burst rps : ℕ) (now : ℚ) :
    rate_burst (burst + 1) now rps burst =
      List.replicate burst true ++ [false] := by
  have hfresh :
      rate_burst (burst + 1) now rps burst =
        rate_go now rps burst (burst + 1) (some ⟨(burst : ℚ), now⟩) := rfl
  rw [hfresh, rate_go_instant now rps burst (burst + 1) burst le_rfl]
  have h1 : min (burst + 1) burst = burst := by omega
  have h2 : burst + 1 - burst = 1 := by omega
  rw [h1, h2]
  rfl

/-- C2 counterexample: a denied check does not leave the bucket
unchanged — with rate 10, burst 20, a bucket holding 0 tokens refilled
at time 0 and checked at time 1/100 is denied, yet its last-refill
timestamp advances from 0 to 1/100. -/
theorem rate_deny_changes_bucket :
    (rate_check (some ⟨0, 0⟩) (1 / 100) 10 20).1 = false ∧
      (rate_check (some ⟨0, 0⟩) (1 / 100) 10 20).2 ≠ ⟨0, 0⟩ := by
  have hcalc : rate_check (some ⟨0, 0⟩) (1 / 100) 10 20 =
      (false, ⟨0, 1 / 100⟩) := by
    unfold rate_check
    norm_num
  rw [hcalc]
  refine ⟨rfl, ?_⟩
  intro hcontra
  have := congrArg RateBucket.ts hcontra
  norm_num at this

/-- C2 amended: on a denied check the token count is unchanged, but the
last-refill timestamp is set to the time of the check. -/
theorem rate_deny_tokens_unchanged (b : RateBucket) (now : ℚ)
    (rps burst : ℕ) (h : (rate_check (some b) now rps burst).1 = false) :
    (rate_check (some b) now rps burst).2 = ⟨b.tokens, now⟩ := by
  unfold rate_check at h ⊢
  by_cases hlt :
      min (burst : ℚ) (b.tokens + max 0 (now - b.ts) * (rps : ℚ)) < 1
  · simp [hlt]
  · simp [hlt] at h

/-- Concrete instantiation of `rate_deny_tokens_unchanged` at the denied
check from the counterexample. -/
theorem rate_deny_tokens_unchanged_witness :
    (rate_check (some ⟨0, 0⟩) (1 / 100) 10 20).1 = false ∧
      (rate_check (some ⟨0, 0⟩) (1 / 100) 10 20).2 = ⟨0, 1 / 100⟩ :=
  ⟨by unfold rate_check; norm_num,
    rate_deny_tokens_unchanged ⟨0, 0⟩ (1 / 100) 10 20
      (by unfold rate_check; norm_num)⟩

/-- Event payload queued by `_queue_event` (the JSON dicts, tagged by
their "type" key). -/
inductive Event : Type where
  | status (msg : String) (detail : String) (ts : Int)
  | dom (chars : Nat) (ts : Int)
  | frame (file : String) (width : Nat) (height : Nat) (ts : Int)
deriving DecidableEq

/-- One artifact record in a session's `frames` dict. -/
structure FrameMeta where
  ts : Int
  width : Nat
  height : Nat
deriving DecidableEq

/-- One `_SESSIONS` entry. -/
structure SessionMeta where
  created : ℚ
  last : ℚ
  headless : Bool
  frames : List (String × FrameMeta)
deriving DecidableEq

/-- The registry state: `_SESSIONS` and `_SESSION_EVENTS` (each queue is
a FIFO list, head = oldest). -/
structure ScrapeState where
  sessions : List (String × SessionMeta)
  events : List (String × List Event)
deriving DecidableEq

/-- Model of `_ensure_session`: `setdefault` the session record, refresh
its `last` timestamp, and create the bounded queue if absent. -/
def ensure_session (st : ScrapeState) (sid : String) (now : ℚ) :
    ScrapeState :=
  let meta := (alget st.sessions sid).getD
    { created := now, last := now, headless := HEADLESS_DEFAULT, frames := [] }
  { sessions := alset st.sessions sid { meta with last := now },
    events :=
      match alget st.events sid with
      | some _ => st.events
      | none => alset st.events sid [] }

/-- Model of `_touch_session`: refresh `last` if the session exists;
no-op otherwise. -/
def touch_session (st : ScrapeState) (sid : String) (now : ℚ) :
    ScrapeState :=
  match alget st.sessions sid with
  | none => st
  | some meta =>
      { st with sessions := alset st.sessions sid { meta with last := now } }

/-- Model of `_record_frame_meta`: record artifact dimensions in the
session's `frames` dict; no-op if the session no longer exists. -/
def record_frame_meta (st : ScrapeState) (sid fname : String)
    (width height : Nat) (now : ℚ) : ScrapeState :=
  match alget st.sessions sid with
  | none => st
  | some meta =>
      { st with
        sessions := alset st.sessions sid
          { meta with
            frames := alset meta.frames fname ⟨tsMillis now, width, height⟩ } }

/-- One enqueue with the overflow handling of `_queue_event`: try
`put_nowait`; on a full queue drop the oldest entry (`get_nowait`) and
retry the put, silently dropping the event if the retry also fails. -/
def qput (cap : Nat) (q : List Event) (e : Event) : List Event :=
  if q.length < cap then q ++ [e]
  else
    let q' := q.drop 1
    if q'.length < cap then q' ++ [e] else q'

/-- Model of `_queue_event`: ensure the session and its queue exist,
then enqueue with drop-oldest overflow. -/
def queue_event (st : ScrapeState) (sid : String) (e : Event) (now : ℚ) :
    ScrapeState :=
  let st1 := ensure_session st sid now
  { st1 with
    events :=
      alset st1.events sid
        (qput QUEUE_CAP ((alget st1.events sid).getD []) e) }

/-- Model of `_result_ok`: a driver result string is a success unless it
starts with "error" after stripping surrounding whitespace and
lowercasing (`.strip().lower().startswith("error")`, written out over
the character list). -/
def result_ok (message : String) : Bool :=
  let stripped :=
    ((message.data.dropWhile Char.isWhitespace).reverse.dropWhile
        Char.isWhitespace).reverse
  !(("error".data).isPrefixOf (stripped.map Char.toLower))

/-- Model of the registry part of `session_start` (after the driver call
returned `msg`): on driver failure nothing changes and no id is issued;
on success both registry dicts are cleared, the fresh id `sid` gets a
newly timestamped record, and a `status` event is published for it. -/
def session_start (st : ScrapeState) (sid : String) (headless : Bool)
    (msg : String) (now : ℚ) : ScrapeState × Option String :=
  if result_ok msg = false then (st, none)
  else
    let st1 : ScrapeState :=
      { sessions :=
          [(sid, { created := now, last := now, headless := headless,
                   frames := [] })],
        events := [] }
    (queue_event st1 sid (.status "browser_started" msg (tsMillis now)) now,
      some sid)

lemma alget_alset_self {α : Type} (l : List (String × α)) (k : String)
    (v : α) : alget (alset l k v) k = some v := by
  induction l with
  | nil => simp [alget, alset]
  | cons p rest ih =>
      obtain ⟨k', v'⟩ := p
      by_cases h : k' = k
      · simp [alset, alget, h]
      · simp [alset, alget, h, ih]

lemma alget_alset_ne {α : Type} (l : List (String × α)) (k k' : String)
    (v : α) (h : k' ≠ k) : alget (alset l k v) k' = alget l k' := by
  induction l with
  | nil => simp [alget, alset, Ne.symm h]
  | cons p rest ih =>
      obtain ⟨k'', v''⟩ := p
      by_cases h2 : k'' = k
      · subst h2
        simp [alset, alget, Ne.symm h]
      · simp [alset, alget, h2, ih]

lemma alget_eq_none {α : Type} (l : List (String × α)) (k : String)
    (h : k ∉ l.map Prod.fst) : alget l k = none := by
  induction l with
  | nil => rfl
  | cons p rest ih =>
      obtain ⟨k', v'⟩ := p
      simp only [List.map_cons, List.mem_cons, not_or] at h
      simp [alget, Ne.symm h.1, ih h.2]

lemma alget_alremove_ne {α : Type} (l : List (String × α)) (k k' : String)
    (h : k' ≠ k) : alget (alremove l k) k' = alget l k' := by
  induction l with
  | nil => rfl
  | cons p rest ih =>
      obtain ⟨k'', v''⟩ := p
      by_cases h2 : k'' = k
      · subst h2
        simp [alremove, alget, Ne.symm h]
      · simp [alremove, alget, h2, ih]

lemma alget_alremove_self {α : Type} (l : List (String × α)) (k : String)
    (hnd : (l.map Prod.fst).Nodup) : alget (alremove l k) k = none := by
  induction l with
  | nil => rfl
  | cons p rest ih =>
      obtain ⟨k', v'⟩ := p
      simp only [List.map_cons, List.nodup_cons] at hnd
      by_cases h : k' = k
      · subst h
        simp only [alremove, if_pos rfl]
        exact alget_eq_none rest k' hnd.1
      · simp [alremove, alget, h, ih hnd.2]

lemma alremove_sublist {α : Type} (l : List (String × α)) (k : String) :
    List.Sublist (alremove l k) l := by
  induction l with
  | nil => simp [alremove]
  | cons p rest ih =>
      obtain ⟨k', v'⟩ := p
      by_cases h : k' = k
      · simp only [alremove, if_pos h]
        exact List.sublist_cons_self _ _
      · simp only [alremove, if_neg h]
        exact ih.cons₂ _

/-- C3: after `session_start` issues a new id `A`, every previously
present id `B ≠ A` is absent from both the session map and the
event-queue map, and `A` is present with a freshly timestamped
metadata record. -/
theorem session_start_single_active (st : ScrapeState) (A : String)
    (headless : Bool) (msg : String) (now : ℚ)
    (hok : result_ok msg = true) (B : String) (hB : B ≠ A) :
    (session_start st A headless msg now).2 = some A ∧
      alget (session_start st A headless msg now).1.sessions B = none ∧
      alget (session_start st A headless msg now).1.events B = none ∧
      alget (session_start st A headless msg now).1.sessions A =
        some { created := now, last := now, headless := headless,
               frames := [] } := by
  simp [session_start, hok, queue_event, ensure_session, qput, alget, alset,
    QUEUE_CAP, Ne.symm hB]

/-- Concrete instantiation of `session_start_single_active`: a state
holding session "old" is wholly replaced by the new id "new". -/
theorem session_start_single_active_witness :
    (session_start ⟨[("old", ⟨0, 0, true, []⟩)], [("old", [])]⟩ "new" true
        "Browser launched (selenium-manager)" 1).2 = some "new" ∧
      alget (session_start ⟨[("old", ⟨0, 0, true, []⟩)], [("old", [])]⟩
          "new" true "Browser launched (selenium-manager)" 1).1.sessions
          "old" = none ∧
      alget (session_start ⟨[("old", ⟨0, 0, true, []⟩)], [("old", [])]⟩
          "new" true "Browser launched (selenium-manager)" 1).1.events
          "old" = none ∧
      alget (session_start ⟨[("old", ⟨0, 0, true, []⟩)], [("old", [])]⟩
          "new" true "Browser launched (selenium-manager)" 1).1.sessions
          "new" =
        some { created := 1, last := 1, headless := true, frames := [] } :=
  session_start_single_active _ "new" true _ 1 (by decide) "old" (by decide)

/-- C5 counterexample: `_queue_event` on an id absent from the registry
creates its session record, so operations other than start-session do
add session ids. -/
theorem queue_event_creates_session :
    alget (⟨[], []⟩ : ScrapeState).sessions "x" = none ∧
      alget (queue_event ⟨[], []⟩ "x" (Event.dom 0 0) 0).sessions "x" =
        some { created := 0, last := 0, headless := HEADLESS_DEFAULT,
               frames := [] } := by
  constructor
  · rfl
  · simp [queue_event, ensure_session, alget, alset]

/-- C5 amended: a session id can be added to the registry only by
start-session or by the lazy creation in `_ensure_session` of the very
id being published to / subscribed to; no operation adds any other id,
and touch / record-artifact never add any id at all. -/
theorem registry_additions_only_targeted (st : ScrapeState)
    (sid sid' : String) (now : ℚ) (e : Event) (fname : String)
    (w h : Nat) (habs : alget st.sessions sid' = none) :
    alget (touch_session st sid now).sessions sid' = none ∧
      alget (record_frame_meta st sid fname w h now).sessions sid' = none ∧
      (sid' ≠ sid →
        alget (ensure_session st sid now).sessions sid' = none) ∧
      (sid' ≠ sid →
        alget (queue_event st sid e now).sessions sid' = none) := by
  have htouch : alget (touch_session st sid now).sessions sid' = none := by
    unfold touch_session
    cases hmeta : alget st.sessions sid with
    | none => exact habs
    | some meta =>
        by_cases heq : sid' = sid
        · subst heq
          rw [habs] at hmeta
          exact Option.noConfusion hmeta
        · simpa [alget_alset_ne _ _ _ _ heq] using habs
  have hrec :
      alget (record_frame_meta st sid fname w h now).sessions sid' = none := by
    unfold record_frame_meta
    cases hmeta : alget st.sessions sid with
    | none => exact habs
    | some meta =>
        by_cases heq : sid' = sid
        · subst heq
          rw [habs] at hmeta
          exact Option.noConfusion hmeta
        · simpa [alget_alset_ne _ _ _ _ heq] using habs
  have hens : sid' ≠ sid →
      alget (ensure_session st sid now).sessions sid' = none := by
    intro hne
    unfold ensure_session
    simpa [alget_alset_ne _ _ _ _ hne] using habs
  refine ⟨htouch, hrec, hens, ?_⟩
  intro hne
  unfold queue_event
  simpa using hens hne

/-- Concrete instantiation of `registry_additions_only_targeted` on the
empty registry: with distinct ids "x" and "y" no operation adds "y",
and touch / record-artifact do not add even their own target "x". -/
theorem registry_additions_only_targeted_witness :
    (alget (touch_session ⟨[], []⟩ "x" 0).sessions "y" = none ∧
      alget (record_frame_meta ⟨[], []⟩ "x" "f.png" 8 6 0).sessions "y" =
        none ∧
      alget (ensure_session ⟨[], []⟩ "x" 0).sessions "y" = none ∧
      alget (queue_event ⟨[], []⟩ "x" (Event.dom 0 0) 0).sessions "y" =
        none) ∧
    (alget (touch_session ⟨[], []⟩ "x" 0).sessions "x" = none ∧
      alget (record_frame_meta ⟨[], []⟩ "x" "f.png" 8 6 0).sessions "x" =
        none) := by
  have h1 := registry_additions_only_targeted ⟨[], []⟩ "x" "y" 0
    (Event.dom 0 0) "f.png" 8 6 rfl
  have h2 := registry_additions_only_targeted ⟨[], []⟩ "x" "x" 0
    (Event.dom 0 0) "f.png" 8 6 rfl
  exact ⟨⟨h1.1, h1.2.1, h1.2.2.1 (by decide), h1.2.2.2 (by decide)⟩,
    ⟨h2.1, h2.2.1⟩⟩

/-- Repeated `_queue_event` calls for one session, in order. -/
def publish_list (st : ScrapeState) (sid : String) (es : List Event)
    (now : ℚ) : ScrapeState :=
  es.foldl (fun acc e => queue_event acc sid e now) st

lemma ensure_session_queue (st : ScrapeState) (sid : String) (now : ℚ) :
    (alget (ensure_session st sid now).events sid).getD [] =
      (alget st.events sid).getD [] := by
  unfold ensure_session
  cases h : alget st.events sid with
  | some q => simp [h]
  | none => simp [h, alget_alset_self]

lemma queue_event_queue (st : ScrapeState) (sid : String) (e : Event)
    (now : ℚ) :
    alget (queue_event st sid e now).events sid =
      some (qput QUEUE_CAP ((alget st.events sid).getD []) e) := by
  unfold queue_event
  simp only [alget_alset_self, ensure_session_queue]

lemma publish_list_queue (sid : String) (now : ℚ) :
    ∀ (es : List Event) (st : ScrapeState), es ≠ [] →
      alget (publish_list st sid es now).events sid =
        some (es.foldl (qput QUEUE_CAP) ((alget st.events sid).getD [])) := by
  intro es
  induction es with
  | nil => intro st h; exact absurd rfl h
  | cons e es ih =>
      intro st _
      cases es with
      | nil =>
          simp only [publish_list, List.foldl_cons, List.foldl_nil]
          exact queue_event_queue st sid e now
      | cons e2 es2 =>
          have step := ih (queue_event st sid e now) (by simp)
          simp only [publish_list, List.foldl_cons] at step ⊢
          rw [step, queue_event_queue]
          simp

lemma qput_length_le (cap : Nat) (q : List Event) (e : Event)
    (h : q.length ≤ cap) : (qput cap q e).length ≤ cap := by
  unfold qput
  split
  · simp only [List.length_append, List.length_cons, List.length_nil]
    omega
  · simp only []
    split
    · simp only [List.length_append, List.length_cons, List.length_nil,
        List.length_drop]
      omega
    · simp only [List.length_drop]
      omega

lemma qput_append (cap : Nat) (q : List Event) (e : Event)
    (h : q.length < cap) : qput cap q e = q ++ [e] := by
  unfold qput
  rw [if_pos h]

lemma qput_drop (cap : Nat) (q : List Event) (e : Event)
    (hq : q.length = cap) (hcap : 0 < cap) :
    qput cap q e = q.drop 1 ++ [e] := by
  unfold qput
  rw [if_neg (by omega)]
  simp only []
  rw [if_pos (by rw [List.length_drop]; omega)]

lemma qfold_fill (cap : Nat) :
    ∀ (es : List Event) (q : List Event), q.length + es.length ≤ cap →
      es.foldl (qput cap) q = q ++ es := by
  intro es
  induction es with
  | nil => intro q _; simp
  | cons e es ih =>
      intro q h
      simp only [List.length_cons] at h
      simp only [List.foldl_cons]
      rw [qput_append cap q e (by omega)]
      rw [ih (q ++ [e]) (by simp; omega)]
      simp

/-- C4: publishing `QUEUE_CAP + 1` events into a session's fresh queue
and draining yields exactly the `QUEUE_CAP` events after the first, in
publish order, and one enqueue never grows a queue beyond `QUEUE_CAP`. -/
theorem event_queue_drop_oldest (es : List Event) (sid : String) (now : ℚ)
    (q : List Event) (e : Event) (h : es.length = QUEUE_CAP + 1)
    (hq : q.length ≤ QUEUE_CAP) :
    alget (publish_list ⟨[], []⟩ sid es now).events sid =
        some (es.drop 1) ∧
      (qput QUEUE_CAP q e).length ≤ QUEUE_CAP := by
  refine ⟨?_, qput_length_le _ q e hq⟩
  have hne : es ≠ [] := by
    intro hcontra
    rw [hcontra] at h
    simp [QUEUE_CAP] at h
  rw [publish_list_queue sid now es ⟨[], []⟩ hne]
  rcases List.eq_nil_or_concat' es with hnil | ⟨es1, elast, rfl⟩
  · exact absurd hnil hne
  · have hlen : es1.length = QUEUE_CAP := by
      simp only [List.length_append, List.length_cons, List.length_nil] at h
      omega
    have hinit :
        (alget (⟨[], []⟩ : ScrapeState).events sid).getD ([] : List Event)
          = [] := rfl
    rw [hinit, List.foldl_append]
    rw [qfold_fill QUEUE_CAP es1 [] (by simp [hlen])]
    simp only [List.nil_append, List.foldl_cons, List.foldl_nil]
    rw [qput_drop QUEUE_CAP es1 elast hlen (by norm_num [QUEUE_CAP])]
    cases es1 with
    | nil => simp [QUEUE_CAP] at hlen
    | cons x xs => simp

/-- Concrete instantiation of `event_queue_drop_oldest`: 257 published
events leave the 256 most recent, and an enqueue at capacity stays at
capacity. -/
theorem event_queue_drop_oldest_witness :
    alget (publish_list ⟨[], []⟩ "s"
          (List.replicate 257 (Event.dom 0 0)) 0).events "s" =
        some ((List.replicate 257 (Event.dom 0 0)).drop 1) ∧
      (qput QUEUE_CAP (List.replicate 256 (Event.dom 0 0))
          (Event.dom 1 1)).length ≤ QUEUE_CAP :=
  event_queue_drop_oldest (List.replicate 257 (Event.dom 0 0)) "s" 0
    (List.replicate 256 (Event.dom 0 0)) (Event.dom 1 1)
    (by rw [List.length_replicate]; norm_num [QUEUE_CAP])
    (by rw [List.length_replicate]; norm_num [QUEUE_CAP])

/-- Session-expiry test of the reaper loop:
`now - last > max(FILE_TTL_S, 2 * FRAME_KEEPALIVE_S)`. -/
def session_expired (now ttl keepalive : ℚ) (meta : SessionMeta) : Bool :=
  decide (now - meta.last > max ttl (2 * keepalive))

/-- One iteration of the reaper's session loop: look the id up again
(skipping it if the session is gone), and if its session is
idle-expired, pop it from both dicts. -/
def sweep_step (now ttl keepalive : ℚ) (acc : ScrapeState) (sid : String) :
    ScrapeState :=
  ((alget acc.sessions sid).map (fun meta =>
    if session_expired now ttl keepalive meta then
      ({ sessions := alremove acc.sessions sid,
         events := alremove acc.events sid } : ScrapeState)
    else acc)).getD acc

lemma sweep_step_none (now ttl keepalive : ℚ) (acc : ScrapeState)
    (sid : String) (h : alget acc.sessions sid = none) :
    sweep_step now ttl keepalive acc sid = acc := by
  unfold sweep_step
  rw [h]
  rfl

lemma sweep_step_expired (now ttl keepalive : ℚ) (acc : ScrapeState)
    (sid : String) (meta : SessionMeta)
    (h : alget acc.sessions sid = some meta)
    (hexp : session_expired now ttl keepalive meta = true) :
    sweep_step now ttl keepalive acc sid =
      { sessions := alremove acc.sessions sid,
        events := alremove acc.events sid } := by
  unfold sweep_step
  rw [h]
  simp only [Option.map_some', Option.getD_some]
  rw [if_pos hexp]

lemma sweep_step_live (now ttl keepalive : ℚ) (acc : ScrapeState)
    (sid : String) (meta : SessionMeta)
    (h : alget acc.sessions sid = some meta)
    (hexp : session_expired now ttl keepalive meta = false) :
    sweep_step now ttl keepalive acc sid = acc := by
  unfold sweep_step
  rw [h]
  simp only [Option.map_some', Option.getD_some]
  rw [if_neg (by rw [hexp]; exact Bool.false_ne_true)]

/-- Model of the session part of one `_cleanup_old_frames` sweep: fold
the loop body over the snapshot of session ids. -/
def cleanup_old_frames (st : ScrapeState) (now ttl keepalive : ℚ) :
    ScrapeState :=
  (st.sessions.map Prod.fst).foldl (sweep_step now ttl keepalive) st

lemma sweep_step_other (now ttl keepalive : ℚ) (acc : ScrapeState)
    (x sid : String) (h : sid ≠ x) :
    alget (sweep_step now ttl keepalive acc x).sessions sid =
        alget acc.sessions sid ∧
      alget (sweep_step now ttl keepalive acc x).events sid =
        alget acc.events sid := by
  cases hx : alget acc.sessions x with
  | none => rw [sweep_step_none now ttl keepalive acc x hx]; exact ⟨rfl, rfl⟩
  | some meta =>
      cases hexp : session_expired now ttl keepalive meta with
      | true =>
          rw [sweep_step_expired now ttl keepalive acc x meta hx hexp]
          exact ⟨alget_alremove_ne _ _ _ h, alget_alremove_ne _ _ _ h⟩
      | false =>
          rw [sweep_step_live now ttl keepalive acc x meta hx hexp]
          exact ⟨rfl, rfl⟩

lemma sweep_fold_other (now ttl keepalive : ℚ) :
    ∀ (L : List String) (acc : ScrapeState) (sid : String), sid ∉ L →
      alget (L.foldl (sweep_step now ttl keepalive) acc).sessions sid =
          alget acc.sessions sid ∧
        alget (L.foldl (sweep_step now ttl keepalive) acc).events sid =
          alget acc.events sid := by
  intro L
  induction L with
  | nil => intro acc sid _; exact ⟨rfl, rfl⟩
  | cons x L ih =>
      intro acc sid h
      simp only [List.mem_cons, not_or] at h
      simp only [List.foldl_cons]
      have hstep := sweep_step_other now ttl keepalive acc x sid h.1
      obtain ⟨ha, hb⟩ := ih (sweep_step now ttl keepalive acc x) sid h.2
      exact ⟨ha.trans hstep.1, hb.trans hstep.2⟩

lemma sweep_step_sub (now ttl keepalive : ℚ) (acc : ScrapeState)
    (x : String) :
    List.Sublist (sweep_step now ttl keepalive acc x).sessions
        acc.sessions ∧
      List.Sublist (sweep_step now ttl keepalive acc x).events
        acc.events := by
  cases hx : alget acc.sessions x with
  | none =>
      rw [sweep_step_none now ttl keepalive acc x hx]
      exact ⟨List.Sublist.refl _, List.Sublist.refl _⟩
  | some meta =>
      cases hexp : session_expired now ttl keepalive meta with
      | true =>
          rw [sweep_step_expired now ttl keepalive acc x meta hx hexp]
          exact ⟨alremove_sublist _ _, alremove_sublist _ _⟩
      | false =>
          rw [sweep_step_live now ttl keepalive acc x meta hx hexp]
          exact ⟨List.Sublist.refl _, List.Sublist.refl _⟩

lemma sweep_fold_sub (now ttl keepalive : ℚ) :
    ∀ (L : List String) (acc : ScrapeState),
      List.Sublist (L.foldl (sweep_step now ttl keepalive) acc).sessions
          acc.sessions ∧
        List.Sublist (L.foldl (sweep_step now ttl keepalive) acc).events
          acc.events := by
  intro L
  induction L with
  | nil => intro acc; exact ⟨List.Sublist.refl _, List.Sublist.refl _⟩
  | cons x L ih =>
      intro acc
      simp only [List.foldl_cons]
      have h1 := sweep_step_sub now ttl keepalive acc x
      have h2 := ih (sweep_step now ttl keepalive acc x)
      exact ⟨h2.1.trans h1.1, h2.2.trans h1.2⟩

/-- C6: one reaper sweep at time `now` removes a session and its event
queue together exactly when `now - lastActivity` exceeds
`max(ttl, 2 * keepalive)`, and retains both otherwise. -/
theorem reaper_sweep_spec (st : ScrapeState) (now ttl keepalive : ℚ)
    (sid : String) (meta : SessionMeta)
    (hnds : (st.sessions.map Prod.fst).Nodup)
    (hnde : (st.events.map Prod.fst).Nodup)
    (hmem : alget st.sessions sid = some meta) :
    (session_expired now ttl keepalive meta = true →
        alget (cleanup_old_frames st now ttl keepalive).sessions sid =
            none ∧
          alget (cleanup_old_frames st now ttl keepalive).events sid =
            none) ∧
      (session_expired now ttl keepalive meta = false →
        alget (cleanup_old_frames st now ttl keepalive).sessions sid =
            some meta ∧
          alget (cleanup_old_frames st now ttl keepalive).events sid =
            alget st.events sid) := by
  have hkey : sid ∈ st.sessions.map Prod.fst := by
    by_contra hk
    rw [alget_eq_none st.sessions sid hk] at hmem
    exact Option.noConfusion hmem
  obtain ⟨s, t, hsplit⟩ := List.append_of_mem hkey
  have hnds' := hnds
  rw [hsplit, List.nodup_append] at hnds'
  obtain ⟨hs, ht, hdisj⟩ := hnds'
  have hsid_s : sid ∉ s := fun hin => hdisj hin (List.mem_cons_self sid t)
  have hsid_t : sid ∉ t := (List.nodup_cons.mp ht).1
  have hfold :
      cleanup_old_frames st now ttl keepalive =
        t.foldl (sweep_step now ttl keepalive)
          (sweep_step now ttl keepalive
            (s.foldl (sweep_step now ttl keepalive) st) sid) := by
    unfold cleanup_old_frames
    rw [hsplit, List.foldl_append, List.foldl_cons]
  have hpre := sweep_fold_other now ttl keepalive s st sid hsid_s
  have hsubs := sweep_fold_sub now ttl keepalive s st
  have hnd1s :
      (((s.foldl (sweep_step now ttl keepalive) st).sessions).map
          Prod.fst).Nodup :=
    List.Nodup.sublist (List.Sublist.map Prod.fst hsubs.1) hnds
  have hnd1e :
      (((s.foldl (sweep_step now ttl keepalive) st).events).map
          Prod.fst).Nodup :=
    List.Nodup.sublist (List.Sublist.map Prod.fst hsubs.2) hnde
  have hacc1mem :
      alget (s.foldl (sweep_step now ttl keepalive) st).sessions sid =
        some meta := hpre.1.trans hmem
  constructor
  · intro hexp
    have hstep := sweep_step_expired now ttl keepalive
      (s.foldl (sweep_step now ttl keepalive) st) sid meta hacc1mem hexp
    rw [hfold]
    have hafter := sweep_fold_other now ttl keepalive t
      (sweep_step now ttl keepalive
        (s.foldl (sweep_step now ttl keepalive) st) sid) sid hsid_t
    rw [hafter.1, hafter.2, hstep]
    exact ⟨alget_alremove_self _ _ hnd1s, alget_alremove_self _ _ hnd1e⟩
  · intro hnexp
    have hstep := sweep_step_live now ttl keepalive
      (s.foldl (sweep_step now ttl keepalive) st) sid meta hacc1mem hnexp
    rw [hfold]
    have hafter := sweep_fold_other now ttl keepalive t
      (sweep_step now ttl keepalive
        (s.foldl (sweep_step now ttl keepalive) st) sid) sid hsid_t
    rw [hafter.1, hafter.2, hstep]
    exact ⟨hacc1mem, hpre.2⟩

/-- Concrete instantiation of `reaper_sweep_spec`: at time 1000 with
ttl 900 and keepalive 45, session "a" (idle since 50) is evicted from
both maps while session "b" (idle since 500) is retained with its
queue. -/
theorem reaper_sweep_spec_witness :
    (alget (cleanup_old_frames
          ⟨[("a", ⟨0, 50, true, []⟩), ("b", ⟨0, 500, true, []⟩)],
            [("a", [Event.dom 3 0]), ("b", [Event.dom 7 0])]⟩
          1000 900 45).sessions "a" = none ∧
      alget (cleanup_old_frames
          ⟨[("a", ⟨0, 50, true, []⟩), ("b", ⟨0, 500, true, []⟩)],
            [("a", [Event.dom 3 0]), ("b", [Event.dom 7 0])]⟩
          1000 900 45).events "a" = none) ∧
    (alget (cleanup_old_frames
          ⟨[("a", ⟨0, 50, true, []⟩), ("b", ⟨0, 500, true, []⟩)],
            [("a", [Event.dom 3 0]), ("b", [Event.dom 7 0])]⟩
          1000 900 45).sessions "b" = some ⟨0, 500, true, []⟩ ∧
      alget (cleanup_old_frames
          ⟨[("a", ⟨0, 50, true, []⟩), ("b", ⟨0, 500, true, []⟩)],
            [("a", [Event.dom 3 0]), ("b", [Event.dom 7 0])]⟩
          1000 900 45).events "b" =
        alget (⟨[("a", ⟨0, 50, true, []⟩), ("b", ⟨0, 500, true, []⟩)],
            [("a", [Event.dom 3 0]), ("b", [Event.dom 7 0])]⟩ :
          ScrapeState).events "b") := by
  have hexp : session_expired 1000 900 45 ⟨0, 50, true, []⟩ = true := by
    unfold session_expired
    rw [decide_eq_true_iff]
    rw [max_eq_left (by norm_num : (2 * 45 : ℚ) ≤ 900)]
    norm_num
  have hnexp : session_expired 1000 900 45 ⟨0, 500, true, []⟩ = false := by
    unfold session_expired
    rw [decide_eq_false_iff_not]
    rw [max_eq_left (by norm_num : (2 * 45 : ℚ) ≤ 900)]
    norm_num
  refine ⟨(reaper_sweep_spec
      ⟨[("a", ⟨0, 50, true, []⟩), ("b", ⟨0, 500, true, []⟩)],
        [("a", [Event.dom 3 0]), ("b", [Event.dom 7 0])]⟩
      1000 900 45 "a" ⟨0, 50, true, []⟩
      (by decide) (by decide) rfl).1 hexp,
    (reaper_sweep_spec
      ⟨[("a", ⟨0, 50, true, []⟩), ("b", ⟨0, 500, true, []⟩)],
        [("a", [Event.dom 3 0]), ("b", [Event.dom 7 0])]⟩
      1000 900 45 "b" ⟨0, 500, true, []⟩
      (by decide) (by decide) rfl).2 hnexp⟩

/-- Outcome of the driver call protected by the `_slot` context
manager. -/
inductive BodyOutcome : Type where
  | ok
  | exn
deriving DecidableEq

/-- Trace of one `with _slot()` execution: semaphore value afterwards,
number of releases performed, and how the block exited. -/
structure SlotExec where
  finalSem : Nat
  releases : Nat
  timedOut : Bool
  raised : Bool
deriving DecidableEq

/-- Model of one `with _slot()` block around a driver call against
`_CONC_SEM = BoundedSemaphore(limit)` currently holding `free` free
slots: a failed acquire (`free = 0` within the wait) raises
TimeoutError from `__enter__` with no release; a successful acquire
takes a slot, runs the body (which may raise), and `__exit__` releases
exactly once on either exit path — the bounded semaphore's
excess-release guard (`release` above `limit` raising, swallowed by the
`except`) modelled by the inner conditional. -/
def slotRun (free limit : Nat) (body : BodyOutcome) : SlotExec :=
  if free = 0 then
    { finalSem := free, releases := 0, timedOut := true, raised := false }
  else
    let acquired := free - 1
    let released := if acquired < limit then acquired + 1 else acquired
    { finalSem := released, releases := 1, timedOut := false,
      raised := body == BodyOutcome.exn }

/-- C7: when acquisition succeeds, exactly one release happens on every
exit path (normal or raising) and the free-slot count is restored; on
timeout nothing is released; the count never exceeds the limit. -/
theorem slot_release_discipline (free limit : Nat) (body : BodyOutcome)
    (h : free ≤ limit) :
    ((slotRun free limit body).timedOut = false →
        (slotRun free limit body).releases = 1 ∧
          (slotRun free limit body).finalSem = free) ∧
      ((slotRun free limit body).timedOut = true →
        (slotRun free limit body).releases = 0 ∧
          (slotRun free limit body).finalSem = free) ∧
      (slotRun free limit body).finalSem ≤ limit := by
  unfold slotRun
  by_cases h0 : free = 0
  · simp [h0]
  · have h1 : free - 1 < limit := by omega
    simp [h0, h1]
    omega

/-- Concrete instantiation of `slot_release_discipline` with one free
slot of two and a raising body. -/
theorem slot_release_discipline_witness :
    ((slotRun 1 2 BodyOutcome.exn).timedOut = false →
        (slotRun 1 2 BodyOutcome.exn).releases = 1 ∧
          (slotRun 1 2 BodyOutcome.exn).finalSem = 1) ∧
      ((slotRun 1 2 BodyOutcome.exn).timedOut = true →
        (slotRun 1 2 BodyOutcome.exn).releases = 0 ∧
          (slotRun 1 2 BodyOutcome.exn).finalSem = 1) ∧
      (slotRun 1 2 BodyOutcome.exn).finalSem ≤ 2 :=
  slot_release_discipline 1 2 BodyOutcome.exn (by norm_num)

/-- Counts of request threads by stage around the admission gate. -/
structure GateState where
  free : Nat
  idleN : Nat
  holdingN : Nat
  doneN : Nat
deriving DecidableEq

/-- Interleaving semantics of the admission gate `_CONC_SEM`: a thread
acquires a slot (possible only while one is free), gives up on timeout,
or releases the slot it holds. -/
inductive GateStep : GateState → GateState → Prop where
  | acquire (s : GateState) (hidle : 0 < s.idleN) (hfree : 0 < s.free) :
      GateStep s ⟨s.free - 1, s.idleN - 1, s.holdingN + 1, s.doneN⟩
  | timeout (s : GateState) (hidle : 0 < s.idleN) :
      GateStep s ⟨s.free, s.idleN - 1, s.holdingN, s.doneN + 1⟩
  | release (s : GateState) (hhold : 0 < s.holdingN) :
      GateStep s ⟨s.free + 1, s.idleN, s.holdingN - 1, s.doneN + 1⟩

/-- States reachable from `k` idle request threads and a gate of `N`
free slots. -/
inductive GateReachable (N k : Nat) : GateState → Prop where
  | init : GateReachable N k ⟨N, k, 0, 0⟩
  | step (s s' : GateState) : GateReachable N k s → GateStep s s' →
      GateReachable N k s'

lemma gate_invariant (N k : Nat) (s : GateState)
    (h : GateReachable N k s) : s.free + s.holdingN = N := by
  induction h with
  | init => simp
  | step s s' _ hstep ih =>
      cases hstep with
      | acquire hidle hfree =>
          dsimp only at ih ⊢
          omega
      | timeout hidle =>
          dsimp only at ih ⊢
          omega
      | release hhold =>
          dsimp only at ih ⊢
          omega

/-- C8: in every state reachable by any interleaving of acquires,
timeouts and releases, at most `N` threads are inside the protected
section, so a probe counting concurrent holders never observes more
than `N`. -/
theorem admission_bound (N k : Nat) (s : GateState)
    (h : GateReachable N k s) : s.holdingN ≤ N := by
  have hinv := gate_invariant N k s h
  omega

/-- Concrete instantiation of `admission_bound`: after one acquire from
two slots and three threads, one holder is inside, within the bound. -/
theorem admission_bound_witness : (⟨1, 2, 1, 0⟩ : GateState).holdingN ≤ 2 :=
  admission_bound 2 3 ⟨1, 2, 1, 0⟩
    (GateReachable.step _ _ GateReachable.init
      (GateStep.acquire ⟨2, 3, 0, 0⟩ (by norm_num) (by norm_num)))

/-- Keepalive state of one `_sse_iter` subscriber loop: the pending
keepalive deadline. -/
structure SseState where
  deadline : ℚ
deriving DecidableEq

/-- What one `_sse_iter` loop iteration yields. -/
inductive SseOut : Type where
  | event (e : Event)
  | keepalive
  | silent
deriving DecidableEq

/-- Model of one iteration of the `_sse_iter` loop observed at time
`now`: a dequeued event is emitted and pushes the deadline to
`now + keepalive`; an empty poll emits a keepalive only once the
deadline has elapsed, which also resets the deadline. -/
def sse_step (keepalive : ℚ) (st : SseState) (now : ℚ)
    (incoming : Option Event) : SseState × SseOut :=
  match incoming with
  | some e => (⟨now + keepalive⟩, SseOut.event e)
  | none =>
      if now ≥ st.deadline then (⟨now + keepalive⟩, SseOut.keepalive)
      else (st, SseOut.silent)

/-- C9: a delivered event resets the keepalive deadline to
`now + keepalive`; an empty poll once the deadline has elapsed emits
exactly one keepalive and resets the deadline; after the reset, any
poll strictly before one full interval has passed emits nothing; and an
empty poll before the deadline emits nothing and leaves the state
unchanged. -/
theorem keepalive_cadence (keepalive : ℚ) (st : SseState)
    (now later early : ℚ) (e : Event) (hdue : st.deadline ≤ now)
    (hlater : later < now + keepalive) (hearly : early < st.deadline) :
    (sse_step keepalive st now (some e)).1.deadline = now + keepalive ∧
      (sse_step keepalive st now none).2 = SseOut.keepalive ∧
      (sse_step keepalive st now none).1.deadline = now + keepalive ∧
      (sse_step keepalive ⟨now + keepalive⟩ later none).2 = SseOut.silent ∧
      (sse_step keepalive st early none).2 = SseOut.silent ∧
      (sse_step keepalive st early none).1 = st := by
  unfold sse_step
  have h1 : ¬ (later ≥ now + keepalive) := not_le.mpr hlater
  have h2 : ¬ (early ≥ st.deadline) := not_le.mpr hearly
  simp only [ge_iff_le]
  rw [if_pos hdue, if_neg h1, if_neg h2]
  simp

/-- Concrete instantiation of `keepalive_cadence` at deadline 100,
interval 45: poll at 100 emits one keepalive, polls at 120 and 99 are
silent. -/
theorem keepalive_cadence_witness :
    (sse_step 45 ⟨100⟩ 100 (some (Event.dom 0 0))).1.deadline =
        100 + 45 ∧
      (sse_step 45 ⟨100⟩ 100 none).2 = SseOut.keepalive ∧
      (sse_step 45 ⟨100⟩ 100 none).1.deadline = 100 + 45 ∧
      (sse_step 45 ⟨100 + 45⟩ 120 none).2 = SseOut.silent ∧
      (sse_step 45 ⟨100⟩ 99 none).2 = SseOut.silent ∧
      (sse_step 45 ⟨100⟩ 99 none).1 = ⟨100⟩ :=
  keepalive_cadence 45 ⟨100⟩ 100 120 99 (Event.dom 0 0) (by norm_num)
    (by norm_num) (by norm_num)

/-- Result returned by the `screenshot` route. -/
inductive ScreenshotResult : Type where
  | ok (file : String) (width : Nat) (height : Nat)
  | err (msg : String)
deriving DecidableEq

/-- Model of the `screenshot` route after the driver call returned
`driverMsg` and the written file parsed to `imgSize` (`none` when
`Image.open` raises, in which case both dimensions degrade to 0): on
driver failure an error is returned and nothing is recorded; otherwise
the artifact metadata is recorded in the session, a frame event is
published, and the relative path with the dimensions is returned. -/
def screenshot (st : ScrapeState) (sid fname : String)
    (driverMsg : String) (imgSize : Option (Nat × Nat)) (now : ℚ) :
    ScrapeState × ScreenshotResult :=
  if result_ok driverMsg = false then (st, ScreenshotResult.err driverMsg)
  else
    let dims := imgSize.getD (0, 0)
    let rel := "/frames/" ++ fname
    let st1 := record_frame_meta st sid fname dims.1 dims.2 now
    let st2 := queue_event st1 sid
      (Event.frame rel dims.1 dims.2 (tsMillis now)) now
    (st2, ScreenshotResult.ok rel dims.1 dims.2)

lemma record_frame_meta_events (st : ScrapeState) (sid fname : String)
    (w h : Nat) (now : ℚ) :
    (record_frame_meta st sid fname w h now).events = st.events := by
  unfold record_frame_meta
  cases alget st.sessions sid <;> rfl

lemma record_frame_meta_sessions (st : ScrapeState) (sid fname : String)
    (w h : Nat) (now : ℚ) (meta : SessionMeta)
    (hm : alget st.sessions sid = some meta) :
    alget (record_frame_meta st sid fname w h now).sessions sid =
      some { meta with
             frames := alset meta.frames fname ⟨tsMillis now, w, h⟩ } := by
  unfold record_frame_meta
  rw [hm]
  simp [alget_alset_self]

lemma queue_event_sessions_some (st : ScrapeState) (sid : String)
    (e : Event) (now : ℚ) (meta : SessionMeta)
    (hm : alget st.sessions sid = some meta) :
    alget (queue_event st sid e now).sessions sid =
      some { meta with last := now } := by
  unfold queue_event ensure_session
  simp only [hm, Option.getD_some]
  rw [alget_alset_self]

lemma qput_last (cap : Nat) (q : List Event) (e : Event)
    (h : q.length ≤ cap) (hcap : 0 < cap) :
    (qput cap q e).getLast? = some e := by
  unfold qput
  split
  · exact List.getLast?_concat _
  · simp only []
    rw [if_pos (by rw [List.length_drop]; omega)]
    exact List.getLast?_concat _

/-- C10: when the driver call succeeds but the written file cannot be
parsed as an image, the screenshot operation still succeeds: it returns
the relative path with width and height 0, records the artifact with
dimensions 0 in the session's metadata, and publishes a frame event
carrying dimensions 0. -/
theorem screenshot_unparsable_image_degrades (st : ScrapeState)
    (sid fname driverMsg : String) (now : ℚ) (meta : SessionMeta)
    (hok : result_ok driverMsg = true)
    (hsess : alget st.sessions sid = some meta)
    (hq : ((alget st.events sid).getD []).length ≤ QUEUE_CAP) :
    (screenshot st sid fname driverMsg none now).2 =
        ScreenshotResult.ok ("/frames/" ++ fname) 0 0 ∧
      alget (screenshot st sid fname driverMsg none now).1.sessions sid =
        some { meta with
               frames := alset meta.frames fname ⟨tsMillis now, 0, 0⟩,
               last := now } ∧
      (∃ q,
        alget (screenshot st sid fname driverMsg none now).1.events sid =
            some q ∧
          q.getLast? =
            some (Event.frame ("/frames/" ++ fname) 0 0 (tsMillis now))) := by
  have hsel :
      screenshot st sid fname driverMsg none now =
        (queue_event (record_frame_meta st sid fname 0 0 now) sid
          (Event.frame ("/frames/" ++ fname) 0 0 (tsMillis now)) now,
          ScreenshotResult.ok ("/frames/" ++ fname) 0 0) := by
    unfold screenshot
    rw [if_neg (by rw [hok]; simp)]
    rfl
  rw [hsel]
  refine ⟨rfl, ?_, ?_⟩
  · have hrec := record_frame_meta_sessions st sid fname 0 0 now meta hsess
    have hqe := queue_event_sessions_some
      (record_frame_meta st sid fname 0 0 now) sid
      (Event.frame ("/frames/" ++ fname) 0 0 (tsMillis now)) now _ hrec
    exact hqe
  · refine ⟨qput QUEUE_CAP
      ((alget (record_frame_meta st sid fname 0 0 now).events sid).getD [])
      (Event.frame ("/frames/" ++ fname) 0 0 (tsMillis now)), ?_, ?_⟩
    · exact queue_event_queue _ sid _ now
    · apply qput_last
      · rw [record_frame_meta_events]
        exact hq
      · norm_num [QUEUE_CAP]

/-- Concrete instantiation of `screenshot_unparsable_image_degrades`:
session "s" with an empty queue, a successful driver call, and an
unparsable file. -/
theorem screenshot_unparsable_image_degrades_witness :
    (screenshot ⟨[("s", ⟨0, 0, true, []⟩)], []⟩ "s" "shot.png" "shot.png"
          none 2).2 = ScreenshotResult.ok ("/frames/" ++ "shot.png") 0 0 ∧
      alget (screenshot ⟨[("s", ⟨0, 0, true, []⟩)], []⟩ "s" "shot.png"
            "shot.png" none 2).1.sessions "s" =
        some { created := 0, last := 2, headless := true,
               frames := alset [] "shot.png" ⟨tsMillis 2, 0, 0⟩ } ∧
      (∃ q,
        alget (screenshot ⟨[("s", ⟨0, 0, true, []⟩)], []⟩ "s" "shot.png"
              "shot.png" none 2).1.events "s" = some q ∧
          q.getLast? =
            some (Event.frame ("/frames/" ++ "shot.png") 0 0
              (tsMillis 2))) :=
  screenshot_unparsable_image_degrades ⟨[("s", ⟨0, 0, true, []⟩)], []⟩
    "s" "shot.png" "shot.png" 2 ⟨0, 0, true, []⟩ (by decide) rfl
    (by norm_num [alget, QUEUE_CAP])

end Scrape
